import Mathlib

/-!
# Verification of the gitstatus repository status engine

A shallow embedding, in Lean 4, of the core algorithms of the gitstatus
daemon (`src/repo.cc`, `src/index.cc`, `src/tag_db.cc`,
`src/response_writer.cc`), together with proofs and refutations of the
specification claims about them.

Byte strings are modelled as `List Nat` (one element per byte).  The active
string order of the repository (`Str<>` from `string_cmp.h`) is either the
plain byte-wise lexicographic order (case-sensitive repositories, `memcmp`
followed by a length tie-break) or the same order applied after folding every
byte with C-locale `tolower` (case-insensitive repositories, `strcasecmp`).
-/

namespace Gitstatus

/-! ## Byte-string comparison (`string_cmp.h`) -/

/-- C-locale `std::tolower`: bytes 65..90 (`A`..`Z`) map to 97..122, all other
bytes are fixed. -/
def toLowerB (b : Nat) : Nat := if 65 ≤ b ∧ b ≤ 90 then b + 32 else b

/-- Per-byte folding applied by `StrCmp`: identity when case-sensitive,
`tolower` when case-insensitive. -/
def foldByte (cs : Bool) (b : Nat) : Nat := if cs then b else toLowerB b

/-- Lexicographic strict order on byte lists: the semantics of comparing two
NUL-terminated C strings with `strcmp`, or two `(ptr, len)` views with
`memcmp` followed by a length tie-break (`StrCmp::operator()(StringView,
StringView)` in `string_cmp.h`). -/
def lexLt : List Nat → List Nat → Bool
  | [], [] => false
  | [], _ :: _ => true
  | _ :: _, [] => false
  | x :: xs, y :: ys =>
    if x < y then true else if y < x then false else lexLt xs ys

/-- Three-way lexicographic comparison, the sign of `StrCmp::operator()`. -/
def lexCmp : List Nat → List Nat → Ordering
  | [], [] => .eq
  | [], _ :: _ => .lt
  | _ :: _, [] => .gt
  | x :: xs, y :: ys =>
    if x < y then .lt else if y < x then .gt else lexCmp xs ys

/-- `Str<>::Lt` — the active strict string order: byte-wise lexicographic
comparison after folding each byte (fold is the identity for case-sensitive
repositories). -/
def strLtA (cs : Bool) (x y : List Nat) : Bool :=
  lexLt (x.map (foldByte cs)) (y.map (foldByte cs))

/-- `Str<>::Cmp` — the active three-way string comparison. -/
def strCmpA (cs : Bool) (x y : List Nat) : Ordering :=
  lexCmp (x.map (foldByte cs)) (y.map (foldByte cs))

/-- `StrEq::operator()(StringView, StringView)` — equal length and equal
contents under the active comparison. -/
def strEqA (cs : Bool) (x y : List Nat) : Bool :=
  x.length == y.length && (strCmpA cs x y == .eq)

/-! ### Order lemmas for `lexLt` -/

theorem lexLt_nil_right (x : List Nat) : lexLt x [] = false := by
  cases x <;> rfl

theorem lexLt_irrefl (x : List Nat) : lexLt x x = false := by
  induction x with
  | nil => rfl
  | cons a as ih => simp [lexLt, ih]

theorem lexLt_asymm : ∀ {x y : List Nat}, lexLt x y = true → lexLt y x = false
  | [], [], h => by simp [lexLt] at h
  | [], _ :: _, _ => rfl
  | _ :: _, [], h => by simp [lexLt] at h
  | x :: xs, y :: ys, h => by
    by_cases hxy : x < y
    · have hyx : ¬ y < x := Nat.lt_asymm hxy
      simp [lexLt, hxy, hyx, Nat.lt_asymm hxy]
    · by_cases hyx : y < x
      · simp [lexLt, hxy, hyx] at h
      · simp [lexLt, hxy, hyx] at h ⊢
        exact lexLt_asymm h

theorem lexLt_trans : ∀ {x y z : List Nat},
    lexLt x y = true → lexLt y z = true → lexLt x z = true
  | [], [], _, h, _ => by simp [lexLt] at h
  | [], _ :: _, [], _, h => by simp [lexLt] at h
  | [], _ :: _, _ :: _, _, _ => rfl
  | _ :: _, [], _, h, _ => by simp [lexLt] at h
  | _ :: _, _ :: _, [], _, h => by simp [lexLt] at h
  | x :: xs, y :: ys, z :: zs, h₁, h₂ => by
    by_cases hxy : x < y
    · by_cases hyz : y < z
      · have : x < z := Nat.lt_trans hxy hyz
        simp [lexLt, this]
      · by_cases hzy : z < y
        · simp [lexLt, hyz, hzy] at h₂
        · have hyz' : y = z := Nat.le_antisymm (Nat.le_of_not_lt hzy) (Nat.le_of_not_lt hyz)
          subst hyz'
          simp [lexLt, hxy]
    · by_cases hyx : y < x
      · simp [lexLt, hxy, hyx] at h₁
      · have hxy' : x = y := Nat.le_antisymm (Nat.le_of_not_lt hyx) (Nat.le_of_not_lt hxy)
        subst hxy'
        simp [lexLt, hxy] at h₁
        by_cases hyz : x < z
        · simp [lexLt, hyz]
        · by_cases hzy : z < x
          · simp [lexLt, hyz, hzy] at h₂
          · simp [lexLt, hyz, hzy] at h₂ ⊢
            exact lexLt_trans h₁ h₂

theorem lexLt_total : ∀ {x y : List Nat},
    lexLt x y = false → lexLt y x = false → x = y
  | [], [], _, _ => rfl
  | [], _ :: _, h, _ => by simp [lexLt] at h
  | _ :: _, [], _, h => by simp [lexLt] at h
  | x :: xs, y :: ys, h₁, h₂ => by
    by_cases hxy : x < y
    · simp [lexLt, hxy] at h₁
    · by_cases hyx : y < x
      · simp [lexLt, hyx] at h₂
      · have hxy' : x = y := Nat.le_antisymm (Nat.le_of_not_lt hyx) (Nat.le_of_not_lt hxy)
        subst hxy'
        simp [lexLt, hxy] at h₁ h₂
        exact congrArg (x :: ·) (lexLt_total h₁ h₂)

/-! ## Response writer (`response_writer.cc`) -/

/-- `kFieldSep` (ASCII unit separator). -/
def kFieldSep : Nat := 31

/-- `kReqSep` (ASCII record separator). -/
def kReqSep : Nat := 30

/-- The value of the C expression `char c` holding byte `b`, on a platform
where `char` is signed 8-bit (x86-64 / macOS, the platforms gitstatus
targets): bytes ≥ 128 wrap to negative values. -/
def charOfByte (b : Nat) : Int := if b < 128 then (b : Int) else (b : Int) - 256

/-- glibc C-locale `std::isprint` for a `char` argument: true exactly on the
printable ASCII range 0x20..0x7E; false for every negative argument. -/
def isprintC (c : Int) : Bool := 32 ≤ c && c ≤ 126

/-- The per-byte transformation of `ResponseWriter::Print(std::string_view)`:
`strm_ << (c > 127 || std::isprint(c) ? c : kUnreadable)` where
`kUnreadable = '?'` (63).  With signed 8-bit `char`, `c > 127` never holds. -/
def printChar (b : Nat) : Nat :=
  let c := charOfByte b
  if c > 127 || isprintC c then b else 63

/-- `ResponseWriter::Print(std::string_view)`: emit the field separator, then
every byte of the field filtered through `printChar`. -/
def printField (s : List Nat) : List Nat := kFieldSep :: s.map printChar

set_option maxRecDepth 8000 in
theorem printChar_eq : ∀ b < 256, printChar b = if 32 ≤ b ∧ b ≤ 126 then b else 63 := by
  decide

/-- C9: a byte of a string field is emitted verbatim iff it lies in
0x20..0x7E; every byte below 0x20 or above 0x7E is replaced by `?`, and in
particular the separators 0x1E and 0x1F never occur inside an emitted field. -/
theorem response_field_sanitization (s : List Nat) (hs : ∀ a ∈ s, a < 256)
    (b : Nat) (hb : b ∈ s) :
    (printChar b = if 32 ≤ b ∧ b ≤ 126 then b else 63) ∧
    (printChar b ∈ (printField s).drop 1) ∧
    kReqSep ∉ (printField s).drop 1 ∧ kFieldSep ∉ (printField s).drop 1 := by
  refine ⟨printChar_eq b (hs b hb), ?_, ?_, ?_⟩
  · simp only [printField, List.drop_succ_cons, List.drop_zero]
    exact List.mem_map_of_mem printChar hb
  · simp only [printField, List.drop_succ_cons, List.drop_zero]
    intro hmem
    rcases List.mem_map.mp hmem with ⟨a, ha, heq⟩
    have := printChar_eq a (hs a ha)
    rw [this] at heq
    unfold kReqSep at heq
    split at heq <;> omega
  · simp only [printField, List.drop_succ_cons, List.drop_zero]
    intro hmem
    rcases List.mem_map.mp hmem with ⟨a, ha, heq⟩
    have := printChar_eq a (hs a ha)
    rw [this] at heq
    unfold kFieldSep at heq
    split at heq <;> omega

/-- Witness for `response_field_sanitization` at concrete input. -/
theorem response_field_sanitization_witness :
    (printChar 30 = if 32 ≤ 30 ∧ 30 ≤ 126 then 30 else 63) ∧
    (printChar 30 ∈ (printField [30]).drop 1) ∧
    kReqSep ∉ (printField [30]).drop 1 ∧ kFieldSep ∉ (printField [30]).drop 1 :=
  response_field_sanitization [30] (by decide) 30 (by decide)

/-! ## The delta notify callback (`Repo::OnDelta`, repo.cc lines 224-244) -/

/-- Modelled from the spec: `GIT_DIFF_DELTA_DO_NOT_INSERT`, a notify-callback
return flag of the external git library (the patched libgit2 is not part of
this repository).  The exact value is immaterial; the three possible return
codes are pairwise distinct. -/
def GIT_DIFF_DELTA_DO_NOT_INSERT : Nat := 1

/-- Modelled from the spec: `GIT_DIFF_DELTA_SKIP_TYPE`, the "stop enumerating
deltas of this type" flag of the external git library. -/
def GIT_DIFF_DELTA_SKIP_TYPE : Nat := 2

/-- Modelled from the spec: `GIT_EUSER`, libgit2's user-abort error code. -/
def GIT_EUSER : Int := -7

/-- `Repo::OnDelta` (repo.cc lines 224-244), logging elided.  `c1` is the
current value of the primary counter (the callback increments it with
`fetch_add`, so `v` is the pre-increment value), `m1` its cap; `c2` is the
sibling counter and `m2` its cap.  Returns the incremented primary counter
and the callback's return code. -/
def OnDelta (c1 m1 c2 m2 : Nat) : Nat × Int :=
  let v := c1
  if v + 1 < m1 then (v + 1, (GIT_DIFF_DELTA_DO_NOT_INSERT : Int))
  else if c2 < m2 then
    (v + 1, ((GIT_DIFF_DELTA_DO_NOT_INSERT ||| GIT_DIFF_DELTA_SKIP_TYPE : Nat) : Int))
  else (v + 1, GIT_EUSER)

/-- C1: the callback first increments the primary counter, and then returns
`DELTA_DO_NOT_INSERT` when the incremented counter is still below its cap,
`DELTA_DO_NOT_INSERT | DELTA_SKIP_TYPE` when the primary counter has reached
its cap but the sibling counter is still below its cap, and `GIT_EUSER` when
neither counter can still grow below its cap. -/
theorem onDelta_return_codes (c1 m1 c2 m2 : Nat) :
    (OnDelta c1 m1 c2 m2).1 = c1 + 1 ∧
    (c1 + 1 < m1 →
      (OnDelta c1 m1 c2 m2).2 = (GIT_DIFF_DELTA_DO_NOT_INSERT : Int)) ∧
    (m1 ≤ c1 + 1 → c2 < m2 →
      (OnDelta c1 m1 c2 m2).2 =
        ((GIT_DIFF_DELTA_DO_NOT_INSERT ||| GIT_DIFF_DELTA_SKIP_TYPE : Nat) : Int)) ∧
    (m1 ≤ c1 + 1 → m2 ≤ c2 → (OnDelta c1 m1 c2 m2).2 = GIT_EUSER) := by
  refine ⟨?_, ?_, ?_, ?_⟩
  · simp only [OnDelta]
    split
    · rfl
    · split <;> rfl
  · intro h
    simp [OnDelta, h]
  · intro h1 h2
    have : ¬ c1 + 1 < m1 := Nat.not_lt.mpr h1
    simp [OnDelta, this, h2]
  · intro h1 h2
    have h1' : ¬ c1 + 1 < m1 := Nat.not_lt.mpr h1
    have h2' : ¬ c2 < m2 := Nat.not_lt.mpr h2
    simp [OnDelta, h1', h2']

/-- Witness for `onDelta_return_codes` at concrete inputs. -/
theorem onDelta_return_codes_witness :
    (OnDelta 0 2 0 1).2 = (GIT_DIFF_DELTA_DO_NOT_INSERT : Int) ∧
    (OnDelta 1 2 0 1).2 =
      ((GIT_DIFF_DELTA_DO_NOT_INSERT ||| GIT_DIFF_DELTA_SKIP_TYPE : Nat) : Int) ∧
    (OnDelta 1 2 1 1).2 = GIT_EUSER :=
  ⟨(onDelta_return_codes 0 2 0 1).2.1 (by decide),
   (onDelta_return_codes 1 2 0 1).2.2.1 (by decide) (by decide),
   (onDelta_return_codes 1 2 1 1).2.2.2 (by decide) (by decide)⟩

/-! ## The diff driver (`Repo::GetIndexStats`, repo.cc lines 127-222)

The concurrent scans are represented by their observable outcome: the final
values the scoreboard counters would hold after `Wait()` returns without
error (`ScanResults`).  Everything else — limit adjustment from git config,
the staged-counter branches, the decision whether the dirty scan runs at all,
and the assembly of the result — is embedded directly from the source. -/

/-- The per-repo scan limits (`Limits`), reconstructed from their use sites
in repo.cc; only the fields `GetIndexStats` reads are modelled. -/
structure Limits where
  dirty_max_index_size : Nat
  max_num_staged : Nat
  max_num_unstaged : Nat
  max_num_conflicted : Nat
  max_num_untracked : Nat
  ignore_status_show_untracked_files : Bool
  ignore_bash_show_untracked_files : Bool
  ignore_bash_show_dirty_state : Bool
  deriving DecidableEq, Repr

/-- The three boolean git config options `GetIndexStats` queries; `none`
means `git_config_get_bool` failed (option absent or unparsable). -/
structure GitConfig where
  status_showUntrackedFiles : Option Bool
  bash_showUntrackedFiles : Option Bool
  bash_showDirtyState : Option Bool
  deriving DecidableEq, Repr

/-- The lambda `Off` in `GetIndexStats`: true iff `git_config_get_bool`
succeeded and produced `false`. -/
def configOff : Option Bool → Bool
  | some false => true
  | _ => false

/-- The limit-zeroing prologue of `GetIndexStats` (repo.cc lines 129-145):
three sequential in-place updates of `lim_`, each guarded by the matching
ignore flag and config bit.  (The mutation is undone on scope exit; see
`getIndexStats`.) -/
def effectiveLimits (lim : Limits) (cfg : GitConfig) : Limits :=
  let lim :=
    if ¬ lim.ignore_status_show_untracked_files ∧
        configOff cfg.status_showUntrackedFiles = true then
      { lim with max_num_untracked := 0 }
    else lim
  let lim :=
    if ¬ lim.ignore_bash_show_untracked_files ∧
        configOff cfg.bash_showUntrackedFiles = true then
      { lim with max_num_untracked := 0 }
    else lim
  if ¬ lim.ignore_bash_show_dirty_state ∧ configOff cfg.bash_showDirtyState = true then
    { lim with max_num_staged := 0, max_num_unstaged := 0, max_num_conflicted := 0 }
  else lim

/-- A git object id: 20 raw bytes (`git_oid`). -/
structure OidT where
  bytes : List Nat
  deriving DecidableEq, Repr

/-- The all-zero oid, the value of the member initializer `head_ = {}`. -/
def zeroOid : OidT := ⟨List.replicate 20 0⟩

/-- Modelled from the spec: `GIT_INDEX_ENTRY_INTENT_TO_ADD`, the
"intent to add" extended flag of the external git library (bit 13). -/
def GIT_INDEX_ENTRY_INTENT_TO_ADD : Nat := 1 <<< 13

/-- The fields of a `git_index_entry` that the embedded code reads. -/
structure IndexEntryM where
  path : List Nat
  mtime_sec : Int
  mtime_nsec : Int
  ino : Nat
  mode : Nat
  gid : Nat
  file_size : Int
  flags_extended : Nat
  deriving DecidableEq, Repr

/-- The loop at repo.cc lines 189-195: the number of index entries whose
`flags_extended` does not carry the intent-to-add bit. -/
def countNonIntentToAdd (entries : List IndexEntryM) : Nat :=
  (entries.filter
    (fun e => e.flags_extended &&& GIT_INDEX_ENTRY_INTENT_TO_ADD == 0)).length

/-- Final scoreboard counter values observed after `Wait()` (relaxed atomics
`staged_`, `unstaged_`, `conflicted_`, `untracked_`, `unstaged_deleted_`). -/
structure ScanResults where
  staged : Nat
  conflicted : Nat
  unstaged : Nat
  untracked : Nat
  unstaged_deleted : Nat
  deriving DecidableEq, Repr

/-- The 18-field result record of `GetIndexStats` (its numeric part). -/
structure IndexStats where
  index_size : Nat
  num_staged : Nat
  num_unstaged : Nat
  num_conflicted : Nat
  num_untracked : Nat
  num_unstaged_deleted : Nat
  deriving DecidableEq, Repr

/-- The result assembly of `GetIndexStats` (repo.cc lines 215-221): every
count is capped by the corresponding limit, and the unstaged-deleted count
additionally by the already-capped unstaged count. -/
def reportStats (index_size : Nat) (lim : Limits) (sb : ScanResults) : IndexStats :=
  let num_unstaged := min sb.unstaged lim.max_num_unstaged
  { index_size := index_size
    num_staged := min sb.staged lim.max_num_staged
    num_unstaged := num_unstaged
    num_conflicted := min sb.conflicted lim.max_num_conflicted
    num_untracked := min sb.untracked lim.max_num_untracked
    num_unstaged_deleted := min sb.unstaged_deleted num_unstaged }

/-- The persistent per-repo state `GetIndexStats` reads and writes: the
configured limits `lim_`, the cached HEAD oid `head_` (all-zero when reset)
and the cached `staged_` / `conflicted_` counters that survive between calls
when HEAD is unchanged. -/
structure RepoM where
  lim : Limits
  head : OidT
  staged : Nat
  conflicted : Nat
  deriving DecidableEq, Repr

/-- `Repo::GetIndexStats` (repo.cc lines 127-222).  `head` is the `head`
argument (null for an empty repo), `cfg` the repo config, `entries` the
index entries, and `scan` the counter values the scheduled scans would
produce.  Returns the stats record and the repo state after the call; the
scope guard `ON_SCOPE_EXIT(this, orig_lim = lim_) { lim_ = orig_lim; }`
restores `lim_`, so the stored limits after the call are the original ones
while all decisions inside the call use `effectiveLimits`. -/
def getIndexStats (r : RepoM) (head : Option OidT) (cfg : GitConfig)
    (entries : List IndexEntryM) (scan : ScanResults) : IndexStats × RepoM :=
  let eff := effectiveLimits r.lim cfg
  let index_size := entries.length
  let (head', staged, conflicted) :=
    if eff.max_num_staged = 0 ∧ eff.max_num_conflicted = 0 then
      (zeroOid, 0, 0)
    else
      match head with
      | some h =>
        if h = r.head then (r.head, r.staged, r.conflicted)
        else (h, scan.staged, scan.conflicted)
      | none => (zeroOid, countNonIntentToAdd entries, r.conflicted)
  let runDirty := index_size ≤ eff.dirty_max_index_size ∧
    (eff.max_num_unstaged ≠ 0 ∨ eff.max_num_untracked ≠ 0)
  let (unstaged, untracked, unstaged_deleted) :=
    if runDirty then (scan.unstaged, scan.untracked, scan.unstaged_deleted)
    else (0, 0, 0)
  let stats := reportStats index_size eff
    ⟨staged, conflicted, unstaged, untracked, unstaged_deleted⟩
  (stats, { r with head := head', staged := staged, conflicted := conflicted })

/-- C4: every reported count equals `min(counter, cap)` — hence never exceeds
its cap, and equals the cap whenever the true counter reached it — and the
unstaged-deleted count equals `min(unstaged_deleted, num_unstaged)`. -/
theorem getIndexStats_cap_enforcement (index_size : Nat) (lim : Limits)
    (sb : ScanResults) :
    (reportStats index_size lim sb).num_staged = min sb.staged lim.max_num_staged ∧
    (reportStats index_size lim sb).num_unstaged = min sb.unstaged lim.max_num_unstaged ∧
    (reportStats index_size lim sb).num_conflicted =
      min sb.conflicted lim.max_num_conflicted ∧
    (reportStats index_size lim sb).num_untracked =
      min sb.untracked lim.max_num_untracked ∧
    (reportStats index_size lim sb).num_staged ≤ lim.max_num_staged ∧
    (reportStats index_size lim sb).num_unstaged ≤ lim.max_num_unstaged ∧
    (reportStats index_size lim sb).num_conflicted ≤ lim.max_num_conflicted ∧
    (reportStats index_size lim sb).num_untracked ≤ lim.max_num_untracked ∧
    (lim.max_num_staged ≤ sb.staged →
      (reportStats index_size lim sb).num_staged = lim.max_num_staged) ∧
    (lim.max_num_unstaged ≤ sb.unstaged →
      (reportStats index_size lim sb).num_unstaged = lim.max_num_unstaged) ∧
    (lim.max_num_conflicted ≤ sb.conflicted →
      (reportStats index_size lim sb).num_conflicted = lim.max_num_conflicted) ∧
    (lim.max_num_untracked ≤ sb.untracked →
      (reportStats index_size lim sb).num_untracked = lim.max_num_untracked) ∧
    (reportStats index_size lim sb).num_unstaged_deleted =
      min sb.unstaged_deleted (reportStats index_size lim sb).num_unstaged := by
  refine ⟨rfl, rfl, rfl, rfl, Nat.min_le_right _ _, Nat.min_le_right _ _,
    Nat.min_le_right _ _, Nat.min_le_right _ _, ?_, ?_, ?_, ?_, rfl⟩ <;>
    exact fun h => Nat.min_eq_right h

/-- Witness for `getIndexStats_cap_enforcement` at concrete input. -/
theorem getIndexStats_cap_enforcement_witness :
    (reportStats 9 ⟨100, 2, 2, 2, 2, false, false, false⟩ ⟨5, 0, 7, 1, 3⟩).num_staged = 2 :=
  ((getIndexStats_cap_enforcement 9 ⟨100, 2, 2, 2, 2, false, false, false⟩
    ⟨5, 0, 7, 1, 3⟩).2.2.2.2.2.2.2.2.1 (by decide)).trans rfl

/-- C5: `status.showUntrackedFiles=false` or `bash.showUntrackedFiles=false`
(with the matching ignore flag unset) force the untracked cap — and hence the
reported untracked count — to zero for this call; `bash.showDirtyState=false`
(ignore flag unset) does the same for the staged, unstaged and conflicted
caps and counts; and the repo's stored limits are restored on return, so a
later call sees the original limits. -/
theorem getIndexStats_config_overrides (r : RepoM) (head : Option OidT)
    (cfg : GitConfig) (entries : List IndexEntryM) (scan : ScanResults) :
    ((¬ r.lim.ignore_status_show_untracked_files ∧
        cfg.status_showUntrackedFiles = some false) ∨
      (¬ r.lim.ignore_bash_show_untracked_files ∧
        cfg.bash_showUntrackedFiles = some false) →
      (effectiveLimits r.lim cfg).max_num_untracked = 0 ∧
      (getIndexStats r head cfg entries scan).1.num_untracked = 0) ∧
    (¬ r.lim.ignore_bash_show_dirty_state ∧ cfg.bash_showDirtyState = some false →
      (effectiveLimits r.lim cfg).max_num_staged = 0 ∧
      (effectiveLimits r.lim cfg).max_num_unstaged = 0 ∧
      (effectiveLimits r.lim cfg).max_num_conflicted = 0 ∧
      (getIndexStats r head cfg entries scan).1.num_staged = 0 ∧
      (getIndexStats r head cfg entries scan).1.num_unstaged = 0 ∧
      (getIndexStats r head cfg entries scan).1.num_conflicted = 0) ∧
    (getIndexStats r head cfg entries scan).2.lim = r.lim := by
  have huntracked : ((¬ r.lim.ignore_status_show_untracked_files ∧
      cfg.status_showUntrackedFiles = some false) ∨
      (¬ r.lim.ignore_bash_show_untracked_files ∧
        cfg.bash_showUntrackedFiles = some false)) →
      (effectiveLimits r.lim cfg).max_num_untracked = 0 := by
    rintro (⟨hig, hcfg⟩ | ⟨hig, hcfg⟩) <;>
      · simp only [effectiveLimits, hcfg, configOff]
        split <;> split <;> simp_all <;> split <;> simp_all
  have hdirty : (¬ r.lim.ignore_bash_show_dirty_state ∧
      cfg.bash_showDirtyState = some false) →
      (effectiveLimits r.lim cfg).max_num_staged = 0 ∧
      (effectiveLimits r.lim cfg).max_num_unstaged = 0 ∧
      (effectiveLimits r.lim cfg).max_num_conflicted = 0 := by
    rintro ⟨hig, hcfg⟩
    simp only [effectiveLimits, hcfg, configOff]
    split <;> split <;> simp_all
  refine ⟨?_, ?_, rfl⟩
  · intro h
    refine ⟨huntracked h, ?_⟩
    simp only [getIndexStats, reportStats, huntracked h]
    split <;> simp [Nat.min_zero]
  · intro h
    obtain ⟨h1, h2, h3⟩ := hdirty h
    refine ⟨h1, h2, h3, ?_, ?_, ?_⟩ <;>
      · simp only [getIndexStats, reportStats, h1, h2, h3]
        split <;> simp [Nat.min_zero]

/-- Witness for `getIndexStats_config_overrides` at concrete input. -/
theorem getIndexStats_config_overrides_witness :
    (effectiveLimits ⟨100, 2, 2, 2, 2, false, false, false⟩
      ⟨some false, none, some false⟩).max_num_untracked = 0 ∧
    (getIndexStats ⟨⟨100, 2, 2, 2, 2, false, false, false⟩, zeroOid, 0, 0⟩
      none ⟨some false, none, some false⟩ [] ⟨0, 0, 0, 0, 0⟩).1.num_untracked = 0 :=
  (getIndexStats_config_overrides ⟨⟨100, 2, 2, 2, 2, false, false, false⟩, zeroOid, 0, 0⟩
    none ⟨some false, none, some false⟩ [] ⟨0, 0, 0, 0, 0⟩).1
    (Or.inl ⟨by decide, rfl⟩)

/-- C7: with a null `head` and a positive effective staged or conflicted cap,
the staged counter is the number of index entries without the intent-to-add
flag, so `num_staged = min(n, cap_staged)`; and if the working-tree scan
finds nothing unstaged or untracked, the reported unstaged and untracked
counts are zero. -/
theorem getIndexStats_empty_repo (r : RepoM) (cfg : GitConfig)
    (entries : List IndexEntryM) (scan : ScanResults)
    (hcap : ¬ ((effectiveLimits r.lim cfg).max_num_staged = 0 ∧
      (effectiveLimits r.lim cfg).max_num_conflicted = 0))
    (hclean : scan.unstaged = 0 ∧ scan.untracked = 0) :
    (getIndexStats r none cfg entries scan).1.num_staged =
      min (countNonIntentToAdd entries) (effectiveLimits r.lim cfg).max_num_staged ∧
    (getIndexStats r none cfg entries scan).1.num_unstaged = 0 ∧
    (getIndexStats r none cfg entries scan).1.num_untracked = 0 := by
  refine ⟨?_, ?_, ?_⟩ <;> simp only [getIndexStats, reportStats, if_neg hcap] <;>
    split <;> simp [hclean.1, hclean.2]

/-- Witness for `getIndexStats_empty_repo` at concrete input. -/
theorem getIndexStats_empty_repo_witness :
    (getIndexStats ⟨⟨100, 2, 2, 2, 2, false, false, false⟩, zeroOid, 0, 0⟩ none
      ⟨none, none, none⟩ [⟨[97], 0, 0, 0, 0, 0, 0, 0⟩, ⟨[98], 0, 0, 0, 0, 0, 0, 8192⟩]
      ⟨0, 0, 0, 0, 0⟩).1.num_staged =
      min (countNonIntentToAdd
        [⟨[97], 0, 0, 0, 0, 0, 0, 0⟩, ⟨[98], 0, 0, 0, 0, 0, 0, 8192⟩])
        (effectiveLimits ⟨100, 2, 2, 2, 2, false, false, false⟩
          ⟨none, none, none⟩).max_num_staged :=
  (getIndexStats_empty_repo ⟨⟨100, 2, 2, 2, 2, false, false, false⟩, zeroOid, 0, 0⟩
    ⟨none, none, none⟩
    [⟨[97], 0, 0, 0, 0, 0, 0, 0⟩, ⟨[98], 0, 0, 0, 0, 0, 0, 8192⟩]
    ⟨0, 0, 0, 0, 0⟩ (by decide) (by decide)).1

/-! ## Repo construction and the untracked-cache probe (repo.cc lines 104-125) -/

/-- The tristate `Tribool` from index.h. -/
inductive TriboolM
  | kFalse
  | kTrue
  | kUnknown
  deriving DecidableEq, Repr

/-- The observable outcome of the `Repo` constructor (repo.cc lines 104-116):
the value of `untracked_cache_` right after construction and whether a
`CheckDirMtime` probe task was scheduled on the global thread pool. -/
structure RepoCtor where
  untracked_cache : TriboolM
  probe_scheduled : Bool
  deriving DecidableEq, Repr

/-- The `Repo` constructor: schedule the mtime probe only when
`lim_.max_num_untracked` is non-zero, otherwise set the tristate to `kFalse`
synchronously (the member initializer leaves it `kUnknown` until the probe
publishes). -/
def repoConstruct (max_num_untracked : Nat) : RepoCtor :=
  if max_num_untracked ≠ 0 then ⟨TriboolM.kUnknown, true⟩
  else ⟨TriboolM.kFalse, false⟩

/-- The scheduled probe task body: publish `kTrue`/`kFalse` according to
`CheckDirMtime` (the task asserts the tristate is still `kUnknown`). -/
def runMtimeProbe (check : Bool) : TriboolM :=
  if check then TriboolM.kTrue else TriboolM.kFalse

/-- The wait loop of `Repo::~Repo` (repo.cc lines 118-125): the destructor
blocks exactly while the tristate is still `kUnknown`. -/
def destructorWaits (c : TriboolM) : Bool := c = TriboolM.kUnknown

/-- C10: with `max_num_untracked = 0` the constructor sets the tristate to
`kFalse` synchronously and schedules no probe task (so the destructor's wait
loop never blocks); the probe task is scheduled exactly when
`max_num_untracked` is positive, and once it publishes, the tristate leaves
`kUnknown`. -/
theorem repo_construct_probe (n : Nat) :
    (n = 0 → repoConstruct n = ⟨TriboolM.kFalse, false⟩ ∧
      destructorWaits (repoConstruct n).untracked_cache = false) ∧
    (n ≠ 0 → (repoConstruct n).probe_scheduled = true ∧
      (repoConstruct n).untracked_cache = TriboolM.kUnknown ∧
      ∀ check, destructorWaits (runMtimeProbe check) = false) := by
  constructor
  · intro h
    subst h
    exact ⟨rfl, rfl⟩
  · intro h
    refine ⟨?_, ?_, ?_⟩
    · simp [repoConstruct, h]
    · simp [repoConstruct, h]
    · intro check
      cases check <;> rfl

/-- Witness for `repo_construct_probe` at concrete inputs. -/
theorem repo_construct_probe_witness :
    (repoConstruct 0 = ⟨TriboolM.kFalse, false⟩ ∧
      destructorWaits (repoConstruct 0).untracked_cache = false) ∧
    (repoConstruct 1).probe_scheduled = true :=
  ⟨(repo_construct_probe 0).1 rfl,
   ((repo_construct_probe 1).2 (by decide)).1⟩

/-! ## Shard derivation (`Repo::UpdateShards`, repo.cc lines 349-392) -/

/-- `Repo::Shard`: a pair of inclusive string bounds.  The source field
`end` is a Lean keyword, hence `stop`. -/
structure Shard where
  start : List Nat
  stop : List Nat
  deriving DecidableEq, Repr

/-- `Repo::Shard::Contains` (repo.cc lines 97-102): a path is outside the
shard when it precedes `start`; an empty `end` means "open end"; otherwise
the path is truncated to the length of `end` before the upper-bound
comparison. -/
def Shard.Contains (cs : Bool) (sh : Shard) (path : List Nat) : Bool :=
  if strLtA cs path sh.start then false
  else if sh.stop.isEmpty then true
  else ! strLtA cs sh.stop (path.take (min path.length sh.stop.length))

/-- `split.find_last_of('/')` followed by `split = split.substr(0, pos + 1)`
(repo.cc lines 370-373): the longest prefix ending in `'/'` (byte 47), or
`none` when the path contains no slash (the `continue` case). -/
def dirPrefix : List Nat → Option (List Nat)
  | [] => none
  | b :: rest =>
    match dirPrefix rest with
    | some s => some (b :: s)
    | none => if b = 47 then some [b] else none

/-- `--shard.end.back()` (repo.cc line 376): decrement the final byte. -/
def decLast : List Nat → List Nat
  | [] => []
  | [b] => [b - 1]
  | b :: rest => b :: decLast rest

/-- The body of one iteration of the split-selection loop of
`Repo::UpdateShards` (repo.cc lines 370-380) given the selected entry path
`split`: take its directory prefix (`continue` when there is none), decrement
the prefix's final byte to form the shard's inclusive upper bound, and push
the shard unless the bound fails to be strictly above `last`. -/
def shardPush (cs : Bool) (split : List Nat) (st : List Nat × List Shard) :
    List Nat × List Shard :=
  match dirPrefix split with
  | none => st
  | some pre =>
    let e := decLast pre
    if strLtA cs st.1 e then (pre, st.2 ++ [⟨st.1, e⟩]) else st

/-- One iteration of the split-selection loop as a fold step over the shard
index `i`: the selected entry is `paths[(i + 1) * index_size / shards]`. -/
def shardStep (cs : Bool) (paths : List (List Nat)) (n s : Nat)
    (st : List Nat × List Shard) (i : Nat) : List Nat × List Shard :=
  shardPush cs (paths.getD ((i + 1) * n / s) []) st

/-- The multi-shard branch of `Repo::UpdateShards` (repo.cc lines 363-382):
select up to `shards - 1` split points with
`shards = min(index_size / 512 + 1, 2 * num_threads)`, then close the list
with an open-ended shard starting at the final boundary. -/
def updateShardsBig (cs : Bool) (threads : Nat) (paths : List (List Nat)) :
    List Shard :=
  let s := min (paths.length / 512 + 1) (2 * threads)
  let st := (List.range (s - 1)).foldl (shardStep cs paths paths.length s) ([], [])
  st.2 ++ [⟨st.1, []⟩]

/-- `Repo::UpdateShards` (repo.cc lines 349-392): a single open shard
`{"", ""}` when the index has at most `kEntriesPerShard = 512` entries or the
pool has fewer than two threads; otherwise the multi-shard construction. -/
def UpdateShards (cs : Bool) (threads : Nat) (paths : List (List Nat)) :
    List Shard :=
  if paths.length ≤ 512 ∨ threads < 2 then [⟨[], []⟩]
  else updateShardsBig cs threads paths

/-! ### Structure of the split points -/

theorem dirPrefix_ends_slash :
    ∀ {p s : List Nat}, dirPrefix p = some s → ∃ c, s = c ++ [47] := by
  intro p
  induction p with
  | nil => intro s h; simp [dirPrefix] at h
  | cons b rest ih =>
    intro s h
    simp only [dirPrefix] at h
    rcases hrec : dirPrefix rest with _ | t
    · rw [hrec] at h
      by_cases hb : b = 47
      · subst hb
        simp at h
        exact ⟨[], by simp [← h]⟩
      · simp [hb] at h
    · rw [hrec] at h
      simp at h
      obtain ⟨c, hc⟩ := ih hrec
      exact ⟨b :: c, by simp [← h, hc]⟩

theorem decLast_append (c : List Nat) : decLast (c ++ [47]) = c ++ [46] := by
  induction c with
  | nil => rfl
  | cons a t ih =>
    cases t with
    | nil => rfl
    | cons x xs =>
      show a :: decLast ((x :: xs) ++ [47]) = a :: ((x :: xs) ++ [46])
      rw [ih]

theorem foldByte_46 (cs : Bool) : foldByte cs 46 = 46 := by cases cs <;> decide

theorem foldByte_47 (cs : Bool) : foldByte cs 47 = 47 := by cases cs <;> decide

theorem lexLt_46_47 (c : List Nat) : lexLt (c ++ [46]) (c ++ [47]) = true := by
  induction c with
  | nil => rfl
  | cons a t ih => simp [lexLt, ih]

/-- Key boundary lemma: for any `P`, the truncated upper-bound test against
`C ++ [46]` succeeds exactly when `P` is strictly below `C ++ [47]`. -/
theorem lexLt_dec_take (C : List Nat) :
    ∀ P : List Nat,
      (lexLt (C ++ [46]) (P.take (C.length + 1)) = false ↔
        lexLt P (C ++ [47]) = true) := by
  induction C with
  | nil =>
    intro P
    cases P with
    | nil => simp [lexLt]
    | cons x xs =>
      have htake : (x :: xs).take (([] : List Nat).length + 1) = [x] := by simp
      rw [List.nil_append, htake]
      rcases Nat.lt_trichotomy 46 x with h | h | h
      · have h1 : lexLt [46] [x] = true := by simp [lexLt, h]
        have h2 : lexLt (x :: xs) [47] = false := by
          have hx : ¬ x < 47 := by omega
          rcases (by omega : 47 < x ∨ 47 = x) with hx' | hx'
          · simp [lexLt, hx, hx']
          · simp [lexLt, hx, ← hx', lexLt_nil_right]
        simp [h1, h2]
      · subst h
        simp [lexLt]
      · have h1 : lexLt [46] [x] = false := by
          have h' : ¬ 46 < x := by omega
          simp [lexLt, h', h]
        have h2 : lexLt (x :: xs) [47] = true := by
          have h' : x < 47 := by omega
          simp [lexLt, h']
        simp [h1, h2]
  | cons a C ih =>
    intro P
    cases P with
    | nil => simp [lexLt]
    | cons x xs =>
      simp only [List.cons_append, List.length_cons, List.take_succ_cons, lexLt]
      by_cases hax : a < x
      · have : ¬ x < a := Nat.lt_asymm hax
        simp [hax, this]
      · by_cases hxa : x < a
        · simp [hax, hxa]
        · have hx : a = x := Nat.le_antisymm (Nat.le_of_not_lt hxa) (Nat.le_of_not_lt hax)
          subst hx
          simp only [hax, hxa, if_false]
          exact ih xs

/-! ### The shard-chain invariant -/

/-- The invariant of `(last, shards_)` maintained by the split-selection
loop: accumulated shards are `⟨b₀, b₁ - 1⟩, ⟨b₁, b₂ - 1⟩, …` for boundaries
`b₀ = ""` and directory prefixes `b₁, …` ending in `/`, each strictly above
the previous shard's decremented bound; `last` is the final boundary. -/
inductive ShardChain (cs : Bool) : List Nat → List Shard → Prop
  | nil : ShardChain cs [] []
  | cons {last : List Nat} {acc : List Shard} (c : List Nat) :
      ShardChain cs last acc →
      strLtA cs last (c ++ [46]) = true →
      ShardChain cs (c ++ [47]) (acc ++ [⟨last, c ++ [46]⟩])

theorem shardPush_chain (cs : Bool) (split : List Nat)
    {st : List Nat × List Shard} (h : ShardChain cs st.1 st.2) :
    ShardChain cs (shardPush cs split st).1 (shardPush cs split st).2 := by
  unfold shardPush
  rcases hpre : dirPrefix split with _ | pre
  · simpa using h
  · obtain ⟨c, hc⟩ := dirPrefix_ends_slash hpre
    subst hc
    simp only [decLast_append]
    by_cases hlt : strLtA cs st.1 (c ++ [46]) = true
    · simpa [hlt] using ShardChain.cons c h hlt
    · simpa [hlt] using h

theorem foldl_shardStep_chain (cs : Bool) (paths : List (List Nat)) (n s : Nat)
    (l : List Nat) {st : List Nat × List Shard} (h : ShardChain cs st.1 st.2) :
    ShardChain cs (l.foldl (shardStep cs paths n s) st).1
      (l.foldl (shardStep cs paths n s) st).2 := by
  induction l generalizing st with
  | nil => simpa using h
  | cons i t ih => exact ih (shardPush_chain cs _ h)

theorem foldl_shardStep_len (cs : Bool) (paths : List (List Nat)) (n s : Nat)
    (l : List Nat) (st : List Nat × List Shard) :
    (l.foldl (shardStep cs paths n s) st).2.length ≤ st.2.length + l.length := by
  induction l generalizing st with
  | nil => simp
  | cons i t ih =>
    refine le_trans (ih _) ?_
    have : (shardStep cs paths n s st i).2.length ≤ st.2.length + 1 := by
      unfold shardStep shardPush
      rcases dirPrefix (paths.getD ((i + 1) * n / s) []) with _ | pre
      · simp
      · dsimp only
        split <;> simp
    simp only [List.length_cons]
    omega

/-! ### Containment characterization -/

theorem strLtA_nil_right (cs : Bool) (p : List Nat) : strLtA cs p [] = false := by
  simp [strLtA, lexLt_nil_right]

theorem strLtA_trans {cs : Bool} {x y z : List Nat} (h1 : strLtA cs x y = true)
    (h2 : strLtA cs y z = true) : strLtA cs x z = true :=
  lexLt_trans h1 h2

theorem map_fold_append (cs : Bool) (c : List Nat) (k : Nat) :
    (c ++ [k]).map (foldByte cs) = c.map (foldByte cs) ++ [foldByte cs k] := by
  simp

theorem strLtA_46_47 (cs : Bool) (c : List Nat) :
    strLtA cs (c ++ [46]) (c ++ [47]) = true := by
  unfold strLtA
  rw [map_fold_append, map_fold_append, foldByte_46, foldByte_47]
  exact lexLt_46_47 _

theorem take_min_length (p : List Nat) (n : Nat) :
    p.take (min p.length n) = p.take n := by
  rcases Nat.le_total p.length n with h | h
  · rw [Nat.min_eq_left h, List.take_length, List.take_of_length_le h]
  · rw [Nat.min_eq_right h]

/-- `Shard::Contains` against an open-ended shard is exactly the lower-bound
test. -/
theorem contains_open (cs : Bool) (st p : List Nat) :
    Shard.Contains cs ⟨st, []⟩ p = ! strLtA cs p st := by
  unfold Shard.Contains
  by_cases h : strLtA cs p st = true
  · simp [h]
  · simp [h]

/-- `Shard::Contains` against a shard whose upper bound is a decremented
directory prefix is exactly the half-open interval test
`start ≤ path < prefix`. -/
theorem contains_mid (cs : Bool) (st c p : List Nat) :
    Shard.Contains cs ⟨st, c ++ [46]⟩ p =
      (! strLtA cs p st && strLtA cs p (c ++ [47])) := by
  unfold Shard.Contains
  by_cases h1 : strLtA cs p st = true
  · simp [h1]
  · have hne : (c ++ [46]).isEmpty = false := by simp
    simp only [h1, if_false, Bool.not_false, Bool.true_and, hne,
      Bool.false_eq_true, if_neg]
    have hlen : (c ++ [46]).length = c.length + 1 := by simp
    rw [hlen, take_min_length]
    have hkey : strLtA cs (c ++ [46]) (p.take (c.length + 1)) = false ↔
        strLtA cs p (c ++ [47]) = true := by
      unfold strLtA
      rw [map_fold_append, map_fold_append, foldByte_46, foldByte_47,
        List.map_take]
      have hclen : c.length = (c.map (foldByte cs)).length := by simp
      rw [hclen]
      exact lexLt_dec_take (c.map (foldByte cs)) (p.map (foldByte cs))
    rcases hB : strLtA cs p (c ++ [47]) with _ | _
    · have : ¬ strLtA cs (c ++ [46]) (p.take (c.length + 1)) = false := by
        intro hcontra
        rw [hkey.mp hcontra] at hB
        cases hB
      simp [eq_true_of_ne_false this]
    · simp [hkey.mpr hB]

/-! ### Properties of the shard chain -/

theorem shardChain_count {cs : Bool} {last : List Nat} {acc : List Shard}
    (h : ShardChain cs last acc) (p : List Nat) :
    (acc ++ [Shard.mk last []]).countP (fun sh => Shard.Contains cs sh p) = 1 := by
  induction h with
  | nil =>
    simp [List.countP_cons, contains_open, strLtA_nil_right]
  | @cons last acc c hch hlt ih =>
    rw [List.append_assoc]
    rw [List.countP_append] at ih ⊢
    have hBC : strLtA cs last (c ++ [47]) = true :=
      strLtA_trans hlt (strLtA_46_47 cs c)
    have htail : (([Shard.mk last (c ++ [46])] ++ [Shard.mk (c ++ [47]) []]).countP
          (fun sh => Shard.Contains cs sh p)) =
        (([Shard.mk last []] : List Shard).countP
          (fun sh => Shard.Contains cs sh p)) := by
      simp only [List.cons_append, List.nil_append, List.countP_cons,
        List.countP_nil, contains_open, contains_mid]
      rcases hA : strLtA cs p last with _ | _
      · rcases hB : strLtA cs p (c ++ [47]) with _ | _ <;> simp [hA, hB]
      · have hB : strLtA cs p (c ++ [47]) = true := strLtA_trans hA hBC
        simp [hA, hB]
    rw [htail]
    exact ih

theorem shardChain_first {cs : Bool} {last : List Nat} {acc : List Shard}
    (h : ShardChain cs last acc) :
    ((acc ++ [Shard.mk last []]).head?.map Shard.start) = some [] := by
  induction h with
  | nil => rfl
  | @cons last acc c hch hlt ih =>
    cases acc with
    | nil =>
      simp only [List.nil_append, List.head?_cons, Option.map_some] at ih ⊢
      simpa using ih
    | cons a t => simpa using ih

theorem shardChain_adjacent {cs : Bool} {last : List Nat} {acc : List Shard}
    (h : ShardChain cs last acc) :
    List.Chain' (fun a b => strLtA cs a.stop b.start = true)
      (acc ++ [Shard.mk last []]) := by
  induction h with
  | nil => simp
  | @cons last acc c hch hlt ih =>
    rw [List.chain'_append] at ih
    rw [List.append_assoc, List.chain'_append]
    refine ⟨?_, ?_, ?_⟩
    · exact ih.1
    · constructor
      · exact strLtA_46_47 cs c
      · simp
    · intro x hx y hy
      simp only [List.cons_append, List.nil_append, List.head?_cons,
        Option.mem_def, Option.some.injEq] at hy
      subst hy
      exact ih.2.2 x hx (Shard.mk last []) rfl

theorem shardChain_inner {cs : Bool} {last : List Nat} {acc : List Shard}
    (h : ShardChain cs last acc) :
    List.Chain' (fun a _ => strLtA cs a.start a.stop = true)
      (acc ++ [Shard.mk last []]) := by
  induction h with
  | nil => simp
  | @cons last acc c hch hlt ih =>
    rw [List.chain'_append] at ih
    rw [List.append_assoc, List.chain'_append]
    refine ⟨?_, ?_, ?_⟩
    · exact ih.1
    · constructor
      · exact hlt
      · simp
    · intro x hx y hy
      exact ih.2.2 x hx (Shard.mk last []) rfl

/-- C2: the shard vector computed before a scan starts at `""`, ends with an
open shard, has strictly increasing bounds between and inside adjacent
shards under the active string order, contains every path in exactly one
shard under the truncating `Shard::Contains` test, and has at most
`16 × thread_count + 1` shards. -/
theorem updateShards_tiling (cs : Bool) (threads : Nat)
    (paths : List (List Nat)) :
    ((UpdateShards cs threads paths).head?.map Shard.start = some []) ∧
    ((UpdateShards cs threads paths).getLast?.map Shard.stop = some []) ∧
    List.Chain' (fun a b => strLtA cs a.stop b.start = true)
      (UpdateShards cs threads paths) ∧
    List.Chain' (fun a _ => strLtA cs a.start a.stop = true)
      (UpdateShards cs threads paths) ∧
    (∀ p : List Nat,
      (UpdateShards cs threads paths).countP
        (fun sh => Shard.Contains cs sh p) = 1) ∧
    (UpdateShards cs threads paths).length ≤ 16 * threads + 1 := by
  unfold UpdateShards
  by_cases hsmall : paths.length ≤ 512 ∨ threads < 2
  · simp only [if_pos hsmall]
    refine ⟨rfl, rfl, ?_, ?_, ?_, ?_⟩
    · simp
    · simp
    · intro p
      simpa using shardChain_count (ShardChain.nil : ShardChain cs [] []) p
    · simp
  · simp only [if_neg hsmall]
    unfold updateShardsBig
    have hch : ShardChain cs
        ((List.range (min (paths.length / 512 + 1) (2 * threads) - 1)).foldl
          (shardStep cs paths paths.length
            (min (paths.length / 512 + 1) (2 * threads))) ([], [])).1
        ((List.range (min (paths.length / 512 + 1) (2 * threads) - 1)).foldl
          (shardStep cs paths paths.length
            (min (paths.length / 512 + 1) (2 * threads))) ([], [])).2 :=
      foldl_shardStep_chain cs paths paths.length _ _ ShardChain.nil
    refine ⟨shardChain_first hch, ?_, shardChain_adjacent hch,
      shardChain_inner hch, fun p => shardChain_count hch p, ?_⟩
    · simp
    · have hlen := foldl_shardStep_len cs paths paths.length
        (min (paths.length / 512 + 1) (2 * threads))
        (List.range (min (paths.length / 512 + 1) (2 * threads) - 1)) ([], [])
      have hbound : min (paths.length / 512 + 1) (2 * threads) ≤ 2 * threads :=
        Nat.min_le_right _ _
      simp only [List.length_append, List.length_cons, List.length_nil,
        List.length_range] at hlen ⊢
      omega

/-! ## Dirty-candidate scan (`ScanDirs`, index.cc lines 113-253)

The file-descriptor stack (`OpenTail`, the `dir_fd` LRU rotation) only
amortizes `openat` calls; its observable effect per directory is whether the
directory could be opened.  Each `IndexDir` therefore carries a `DirFS`
oracle describing the outcome of its filesystem interactions: whether the
directory opened, its `fstat` result, its listing, per-name `fstatat`
results, and the per-entry racy-git verdict. -/

/-- The `struct stat` fields read by the embedded code. -/
structure StatM where
  mtime_sec : Int
  mtime_nsec : Int
  ino : Nat
  mode : Nat
  gid : Nat
  size : Int
  deriving DecidableEq, Repr

/-- The zero-initialized `struct stat st = {}`. -/
def statZero : StatM := ⟨0, 0, 0, 0, 0, 0⟩

/-- `Mode` (index.cc lines 59-65): regular files normalize their permission
bits to 0755 (any execute bit set) or 0644; other modes keep only the format
bits `S_IFMT`. -/
def ModeNorm (mode : Nat) : Nat :=
  if mode &&& 0xF000 == 0x8000 then
    0x8000 ||| (if mode &&& 0o111 != 0 then 0o755 else 0o644)
  else mode &&& 0xF000

/-- `IsModified` (index.cc lines 67-72): the entry is modified when any of
mtime seconds, mtime nanoseconds, inode, normalized mode, gid or size
differ between the index entry and the stat result. -/
def IsModified (e : IndexEntryM) (st : StatM) : Bool :=
  e.mtime_sec != st.mtime_sec || e.mtime_nsec != st.mtime_nsec ||
  e.ino != st.ino || e.mode != ModeNorm st.mode || e.gid != st.gid ||
  e.file_size != st.size

/-- Modelled from the spec: `StatEq` from `stat.h`, which is not under
`src/` — per the spec, two stats compare equal iff the tuple
`(mtim sec, mtim nsec, size, ino)` is unchanged. -/
def StatEq (x y : StatM) : Bool :=
  x.mtime_sec == y.mtime_sec && x.mtime_nsec == y.mtime_nsec &&
  x.size == y.size && x.ino == y.ino

/-- One directory-listing entry: the `d_type == DT_DIR` flag and the
basename. -/
structure DirEntryM where
  is_dir : Bool
  name : List Nat
  deriving DecidableEq, Repr

/-- `IndexDir` (index.h): directory path (ending in `/`, empty for the
root), the index entries directly in the directory, the immediate subdir
basenames, the cached stat snapshot, and the unmatched paths from the last
scan. -/
structure IndexDirM where
  path : List Nat
  files : List IndexEntryM
  subdirs : List (List Nat)
  st : StatM
  unmatched : List (List Nat)
  deriving DecidableEq, Repr

/-- Filesystem oracle for scanning one directory. -/
structure DirFS where
  openOk : Bool
  dirStat : Option StatM
  listing : Option (List DirEntryM)
  fileStat : List Nat → Option StatM
  racy : List Nat → Bool

/-- `".git/"` as bytes. -/
def gitSlash : List Nat := [46, 103, 105, 116, 47]

/-- `AddUnmached("")` (index.cc lines 139-153) followed by the unconditional
tail of the lambda: reset the stat snapshot and the unmatched list, then
record `dir.path` itself (path plus empty basename) in both `unmatched` and
the result. -/
def addUnmatchedEmpty (dir : IndexDirM) : List (List Nat) × IndexDirM :=
  ([dir.path], { dir with st := statZero, unmatched := [dir.path] })

/-- The inner file loop of the three-way merge (index.cc lines 212-230) for
one directory entry: emit index files strictly below the entry as deleted,
and on a name match emit the file when racy or modified.  Returns the
emitted paths, the remaining file cursor, and whether the entry matched a
file. -/
def mergeFileLoop (cs : Bool) (fs : DirFS) (dirPath entry : List Nat) :
    List IndexEntryM → List (List Nat) × List IndexEntryM × Bool
  | [] => ([], [], false)
  | f :: rest =>
    match strCmpA cs (f.path.drop dirPath.length) entry with
    | .lt =>
      let r := mergeFileLoop cs fs dirPath entry rest
      (f.path :: r.1, r.2.1, r.2.2)
    | .eq =>
      if fs.racy f.path then ([f.path], rest, true)
      else
        let st := (fs.fileStat entry).getD statZero
        if IsModified f st then ([f.path], rest, true) else ([], rest, true)
    | .gt => ([], f :: rest, false)

/-- The subdir loop of the merge (index.cc lines 234-242): advance past
smaller subdirs, and report whether the entry matched a subdir. -/
def mergeSubdirLoop (cs : Bool) (entry : List Nat) :
    List (List Nat) → List (List Nat) × Bool
  | [] => ([], false)
  | s :: rest =>
    match strCmpA cs s entry with
    | .gt => (s :: rest, false)
    | .eq => (rest, true)
    | .lt => mergeSubdirLoop cs entry rest

/-- The outer merge loop over the directory listing (index.cc lines
209-249).  An unmatched entry gets `/` appended when its `d_type` is
`DT_DIR`, is dropped when it equals `".git/"`, and is otherwise recorded
(path-prefixed) both as a candidate and in the new `unmatched` list.
Mirroring the source, index files left over after the listing is exhausted
are not emitted. -/
def mergeEntries (cs : Bool) (fs : DirFS) (dirPath : List Nat) :
    List DirEntryM → List IndexEntryM → List (List Nat) →
    List (List Nat) × List (List Nat)
  | [], _, _ => ([], [])
  | e :: rest, files, subdirs =>
    let fl := mergeFileLoop cs fs dirPath e.name files
    if fl.2.2 then
      let r2 := mergeEntries cs fs dirPath rest fl.2.1 subdirs
      (fl.1 ++ r2.1, r2.2)
    else
      let sl := mergeSubdirLoop cs e.name subdirs
      if sl.2 then
        let r2 := mergeEntries cs fs dirPath rest fl.2.1 sl.1
        (fl.1 ++ r2.1, r2.2)
      else
        let bn := if e.is_dir then e.name ++ [47] else e.name
        let r2 := mergeEntries cs fs dirPath rest fl.2.1 sl.1
        if strEqA cs bn gitSlash then (fl.1 ++ r2.1, r2.2)
        else (fl.1 ++ (dirPath ++ bn) :: r2.1, (dirPath ++ bn) :: r2.2)

/-- Successful listing continuation (index.cc lines 197-249): clear
`unmatched`, run the merge, and store the new unmatched list. -/
def scanListedDir (cs : Bool) (fs : DirFS) (dir : IndexDirM)
    (entries : List DirEntryM) : List (List Nat) × IndexDirM :=
  let r := mergeEntries cs fs dir.path entries dir.files dir.subdirs
  (r.1, { dir with unmatched := r.2 })

/-- The per-directory body of `ScanDirs` (index.cc lines 134-250): open
failure, stat failure (when the untracked cache is enabled) and listing
failure all degrade to `AddUnmached("")`; an enabled untracked cache with an
unchanged stat takes the fast per-file stat sweep and re-emits the previous
unmatched paths; otherwise the stat snapshot is refreshed and the directory
listing is merged. -/
def scanOneDir (cs : Bool) (cache : TriboolM) (dir : IndexDirM) (fs : DirFS) :
    List (List Nat) × IndexDirM :=
  if !fs.openOk then addUnmatchedEmpty dir
  else if cache ≠ TriboolM.kFalse then
    match fs.dirStat with
    | none => addUnmatchedEmpty dir
    | some st =>
      if cache = TriboolM.kTrue ∧ StatEq st dir.st = true then
        ((dir.files.filterMap (fun f =>
            let bn := f.path.drop dir.path.length
            let st' := (fs.fileStat bn).getD statZero
            if IsModified f st' then some f.path else none)) ++ dir.unmatched,
          dir)
      else
        match fs.listing with
        | none => addUnmatchedEmpty { dir with st := st }
        | some entries => scanListedDir cs fs { dir with st := st } entries
  else
    match fs.listing with
    | none => addUnmatchedEmpty dir
    | some entries => scanListedDir cs fs dir entries

/-- The loop of `ScanDirs` over the shard's directories, accumulating
candidates in order. -/
def ScanDirsM (cs : Bool) (cache : TriboolM) :
    List (IndexDirM × DirFS) → List (List Nat) × List IndexDirM
  | [] => ([], [])
  | (d, fs) :: rest =>
    let r := scanOneDir cs cache d fs
    let rs := ScanDirsM cs cache rest
    (r.1 ++ rs.1, r.2 :: rs.2)

/-- C3 (refutation): for the directory `sub/` holding the single index file
`sub/b` while the disk listing holds only the regular file `a`, the merge
emits only the new entry `sub/a`; the deleted index file `sub/b` — which
sorts after every disk entry — is never emitted, because the merge loop ends
with the listing and the remaining file cursor is dropped. -/
theorem scanDirs_drops_trailing_deletion :
    (scanOneDir true TriboolM.kFalse
        ⟨[115, 117, 98, 47], [⟨[115, 117, 98, 47, 98], 0, 0, 0, 0, 0, 0, 0⟩],
          [], statZero, []⟩
        ⟨true, none, some [⟨false, [97]⟩], fun _ => none, fun _ => false⟩).1 =
      [[115, 117, 98, 47, 97]] ∧
    [115, 117, 98, 47, 98] ∉
      (scanOneDir true TriboolM.kFalse
        ⟨[115, 117, 98, 47], [⟨[115, 117, 98, 47, 98], 0, 0, 0, 0, 0, 0, 0⟩],
          [], statZero, []⟩
        ⟨true, none, some [⟨false, [97]⟩], fun _ => none, fun _ => false⟩).1 := by
  constructor
  · rfl
  · decide

/-- C8 (refutation of the claim as stated): when the directory `sub/`
holding the index file `sub/a` cannot be opened, the scan emits only the
directory path `sub/` itself — not the index file `sub/a` that the claim
says is reported. -/
theorem scanDirs_failure_counterexample :
    (scanOneDir true TriboolM.kFalse
        ⟨[115, 117, 98, 47], [⟨[115, 117, 98, 47, 97], 0, 0, 0, 0, 0, 0, 0⟩],
          [], statZero, []⟩
        ⟨false, none, none, fun _ => none, fun _ => false⟩).1 =
      [[115, 117, 98, 47]] ∧
    [115, 117, 98, 47, 97] ∉
      (scanOneDir true TriboolM.kFalse
        ⟨[115, 117, 98, 47], [⟨[115, 117, 98, 47, 97], 0, 0, 0, 0, 0, 0, 0⟩],
          [], statZero, []⟩
        ⟨false, none, none, fun _ => none, fun _ => false⟩).1 := by
  constructor
  · rfl
  · decide

theorem scanDirsM_append (cs : Bool) (cache : TriboolM)
    (xs ys : List (IndexDirM × DirFS)) :
    (ScanDirsM cs cache (xs ++ ys)).1 =
      (ScanDirsM cs cache xs).1 ++ (ScanDirsM cs cache ys).1 := by
  induction xs with
  | nil => simp [ScanDirsM]
  | cons x t ih =>
    obtain ⟨d, fs⟩ := x
    simp [ScanDirsM, ih]

/-- C8 (amended): a directory that cannot be opened, statted (with the
untracked cache enabled) or listed degrades to resetting its stat snapshot
and unmatched list and emitting its own path (with trailing slash) as the
single dirty candidate for that directory; the remaining directories of the
shard are scanned normally. -/
theorem scanDirs_failure_degrades (cs : Bool) (cache : TriboolM)
    (d : IndexDirM) (fs : DirFS) (ds₁ ds₂ : List (IndexDirM × DirFS))
    (hfail : fs.openOk = false ∨
      (cache ≠ TriboolM.kFalse ∧ fs.dirStat = none) ∨
      (fs.listing = none ∧ cache = TriboolM.kFalse) ∨
      (fs.listing = none ∧ ∃ st, fs.dirStat = some st ∧
        ¬ (cache = TriboolM.kTrue ∧ StatEq st d.st = true))) :
    scanOneDir cs cache d fs =
      ([d.path], { d with st := statZero, unmatched := [d.path] }) ∧
    (ScanDirsM cs cache (ds₁ ++ (d, fs) :: ds₂)).1 =
      (ScanDirsM cs cache ds₁).1 ++ d.path :: (ScanDirsM cs cache ds₂).1 := by
  have hone : scanOneDir cs cache d fs =
      ([d.path], { d with st := statZero, unmatched := [d.path] }) := by
    rcases hopen : fs.openOk with _ | _
    · simp [scanOneDir, hopen, addUnmatchedEmpty]
    · rcases hfail with h | ⟨hc, hst⟩ | ⟨hl, hc⟩ | ⟨hl, st, hst, hfast⟩
      · rw [hopen] at h
        cases h
      · simp [scanOneDir, hopen, hc, hst, addUnmatchedEmpty]
      · have : ¬ cache ≠ TriboolM.kFalse := by simp [hc]
        simp [scanOneDir, hopen, this, hl, addUnmatchedEmpty]
      · by_cases hc : cache = TriboolM.kFalse
        · have : ¬ cache ≠ TriboolM.kFalse := by simp [hc]
          simp [scanOneDir, hopen, this, hl, addUnmatchedEmpty]
        · simp [scanOneDir, hopen, hc, hst, hfast, hl, addUnmatchedEmpty]
  refine ⟨hone, ?_⟩
  rw [scanDirsM_append]
  simp [ScanDirsM, hone]

/-- Witness for `scanDirs_failure_degrades` at concrete input. -/
theorem scanDirs_failure_degrades_witness :
    scanOneDir true TriboolM.kFalse
        ⟨[115, 117, 98, 47], [], [], statZero, []⟩
        ⟨false, none, none, fun _ => none, fun _ => false⟩ =
      ([[115, 117, 98, 47]],
        ⟨[115, 117, 98, 47], [], [], statZero, [[115, 117, 98, 47]]⟩) :=
  (scanDirs_failure_degrades true TriboolM.kFalse
    ⟨[115, 117, 98, 47], [], [], statZero, []⟩
    ⟨false, none, none, fun _ => none, fun _ => false⟩ [] [] (Or.inl rfl)).1

/-! ## TagDb (`tag_db.cc`)

The packed-refs buffer is represented after line splitting: a `PackFile`
holds the lstat result, whether the header declared the pack `fully-peeled`,
and the records `(ref name, effective oid)` — for fully-peeled packs the
oid of a record is the one from its `^`-continuation line when present.
`peeled_tags_` is kept here in pack order: in the source it is sorted by
commit oid by a background pool task and queried with `std::equal_range`,
which selects exactly the records whose commit matches; since the only
observation of that range is a running lexicographic maximum, the selection
is order-independent and equals `List.filter`. -/

/-- A `TagDb::Tag`: full ref name and (peeled) commit oid. -/
structure TagT where
  ref : List Nat
  commit : OidT
  deriving DecidableEq, Repr

/-- The persistent `TagDb` state: `pack_stat_`, `peeled_tags_`,
`unpeeled_tags_`. -/
structure TagDbM where
  pack_stat : StatM
  peeled_tags : List TagT
  unpeeled_tags : List (List Nat)
  deriving DecidableEq, Repr

/-- A freshly constructed `TagDb` (also the state after `Reset()`). -/
def tagDbInit : TagDbM := ⟨statZero, [], []⟩

/-- The `packed-refs` file as seen by one call. -/
structure PackFile where
  stat : Option StatM
  fully_peeled : Bool
  refs : List TagT

/-- Filesystem oracle for one `TagForCommit` call: the pack file, the sorted
loose-tag listing of `refs/tags/` (`none` when the directory cannot be
opened), and the verdict of `TagHasTarget(repo_, refdb, "refs/tags/" + tag,
&oid)` for the query oid. -/
structure TagFS where
  pack : PackFile
  loose : Option (List (List Nat))
  resolves : List Nat → Bool

/-- Insertion step of a stable ascending sort over byte strings. -/
def insertSorted (le : List Nat → List Nat → Bool) (x : List Nat) :
    List (List Nat) → List (List Nat)
  | [] => [x]
  | y :: ys => if le x y then x :: y :: ys else y :: insertSorted le x ys

/-- `StrSort(…, case_sensitive = true)`: sort byte strings ascending under
the case-sensitive order (insertion sort; the order is total and duplicate
strings are identical, so the sorted result is unique). -/
def strSortCS (l : List (List Nat)) : List (List Nat) :=
  l.foldr (insertSorted (fun a b => ! lexLt b a)) []

/-- `"refs/tags/"` as bytes. -/
def kTagPrefix : List Nat := [114, 101, 102, 115, 47, 116, 97, 103, 115, 47]

/-- `StripTag` (tag_db.cc lines 65-70). -/
def stripTag (ref : List Nat) : Option (List Nat) :=
  if kTagPrefix.isPrefixOf ref then some (ref.drop kTagPrefix.length) else none

/-- The record loop of `TagDb::ParsePack` (tag_db.cc lines 234-258): skip
records outside `refs/tags/`; for a fully-peeled pack collect the record
into `peeled_tags_` and its stripped name into the match list when its oid
equals the query; otherwise collect the full ref into `unpeeled_tags_`.
Returns (new peeled tags, new unpeeled refs, matches), each in pack order. -/
def parsePackRefs (commit : OidT) (peeled : Bool) :
    List TagT → List TagT × List (List Nat) × List (List Nat)
  | [] => ([], [], [])
  | r :: rest =>
    let t := parsePackRefs commit peeled rest
    match stripTag r.ref with
    | none => t
    | some tag =>
      if peeled then
        (r :: t.1, t.2.1, if r.commit = commit then tag :: t.2.2 else t.2.2)
      else (t.1, r.ref :: t.2.1, t.2.2)

/-- `TagDb::ParsePack` (tag_db.cc lines 210-272): run the record loop, sort
`unpeeled_tags_` case-sensitively, and (through the background pool task
that every later access waits for) leave `peeled_tags_` sorted by commit —
represented here in pack order, see the section comment. -/
def parsePack (commit : OidT) (pk : PackFile) (s : TagDbM) :
    TagDbM × List (List Nat) :=
  let t := parsePackRefs commit pk.fully_peeled pk.refs
  ({ s with
      peeled_tags := s.peeled_tags ++ t.1
      unpeeled_tags := strSortCS (s.unpeeled_tags ++ t.2.1) },
    t.2.2)

/-- `TagDb::UpdatePack` (tag_db.cc lines 165-208): on lstat failure reset
and report `false`; when the stat tuple is unchanged reuse the cache and
report `false`; otherwise read the file (the model assumes the re-stat
retry loop converged), record the new stat, parse, and report the
matches. -/
def updatePack (s : TagDbM) (fs : TagFS) (oid : OidT) :
    TagDbM × Option (List (List Nat)) :=
  match fs.pack.stat with
  | none => (tagDbInit, none)
  | some st =>
    if StatEq s.pack_stat st then (s, none)
    else
      let r := parsePack oid fs.pack { s with pack_stat := st }
      (r.1, some r.2)

/-- `TagDb::TagForCommit` (tag_db.cc lines 120-163).  Returns the new state,
the resulting tag name, and whether the call re-read and re-parsed the
packed-refs file.  The loose pass keeps the lexicographically largest
resolving loose tag; when `UpdatePack` parsed, the match list is scanned in
reverse and the first tag not shadowed by a loose tag is combined into the
result immediately; otherwise the cached `peeled_tags_` records with the
query oid are folded the same way. -/
def tagForCommit (s : TagDbM) (fs : TagFS) (oid : OidT) :
    TagDbM × List Nat × Bool :=
  let loose := fs.loose.getD []
  let res0 := loose.foldl
    (fun res t => if fs.resolves t then (if lexLt res t then t else res) else res) []
  let u := updatePack s fs oid
  match u.2 with
  | some ms =>
    match ms.reverse.find? (fun t => ! loose.contains t) with
    | some t => (u.1, if lexLt res0 t then t else res0, true)
    | none => (u.1, res0, true)
  | none =>
    let range := u.1.peeled_tags.filter (fun tg => tg.commit = oid)
    let res := range.foldl
      (fun res tg =>
        match stripTag tg.ref with
        | some t =>
          if ! loose.contains t then (if lexLt res t then t else res) else res
        | none => res) res0
    (u.1, res, false)

/-- C6 (refutation of the claim as stated): with an unchanged filesystem
whose fully-peeled pack lists two tags `z` and `a`, both peeled to the query
oid, in that (descending) order and no loose tags, a fresh TagDb answers
`a` on the first call (first unshadowed match in reverse pack order) but
`z` on the second call (maximum over the cached oid-matching range). -/
theorem tagdb_two_calls_differ :
    (tagForCommit tagDbInit
        ⟨⟨some ⟨0, 0, 0, 0, 0, 1⟩, true,
          [⟨kTagPrefix ++ [122], ⟨[1]⟩⟩, ⟨kTagPrefix ++ [97], ⟨[1]⟩⟩]⟩,
          some [], fun _ => false⟩ ⟨[1]⟩).2.1 = [97] ∧
    (tagForCommit
        (tagForCommit tagDbInit
          ⟨⟨some ⟨0, 0, 0, 0, 0, 1⟩, true,
            [⟨kTagPrefix ++ [122], ⟨[1]⟩⟩, ⟨kTagPrefix ++ [97], ⟨[1]⟩⟩]⟩,
            some [], fun _ => false⟩ ⟨[1]⟩).1
        ⟨⟨some ⟨0, 0, 0, 0, 0, 1⟩, true,
          [⟨kTagPrefix ++ [122], ⟨[1]⟩⟩, ⟨kTagPrefix ++ [97], ⟨[1]⟩⟩]⟩,
          some [], fun _ => false⟩ ⟨[1]⟩).2.1 = [122] ∧
    ([97] : List Nat) ≠ [122] := by
  refine ⟨?_, ?_, by decide⟩ <;> decide

/-! ### The second call reuses the cache -/

theorem statEq_refl (st : StatM) : StatEq st st = true := by
  simp [StatEq]

/-- `if (res < tag) res = tag`. -/
def strMax (r t : List Nat) : List Nat := if lexLt r t then t else r

/-- Running lexicographic maximum over the elements satisfying `p`. -/
def foldBest (p : List Nat → Bool) (r : List Nat) (l : List (List Nat)) :
    List Nat :=
  l.foldl (fun r t => if p t then strMax r t else r) r

theorem foldBest_grow (p : List Nat → Bool) (t : List Nat) :
    ∀ (M : List (List Nat)) (r : List Nat),
      (∀ a ∈ M, lexLt a t = true) → strMax (foldBest p r M) t = strMax r t := by
  intro M
  induction M with
  | nil => intro r _; rfl
  | cons f rest ih =>
    intro r hall
    have hstep : foldBest p r (f :: rest) = foldBest p (if p f then strMax r f else r) rest := rfl
    rw [hstep, ih _ (fun a ha => hall a (List.mem_cons_of_mem f ha))]
    by_cases hpf : p f = true
    · simp only [hpf, if_true]
      have hft : lexLt f t = true := hall f (List.mem_cons_self f rest)
      unfold strMax
      by_cases hrf : lexLt r f = true
      · have hrt : lexLt r t = true := lexLt_trans hrf hft
        simp [hrf, hft, hrt]
      · simp [hrf]
    · simp [hpf]

theorem findRev_eq_foldBest (p : List Nat → Bool) (M : List (List Nat))
    (r : List Nat)
    (hsorted : List.Pairwise (fun a b => lexLt a b = true) M) :
    (match M.reverse.find? p with
      | some t => strMax r t
      | none => r) = foldBest p r M := by
  induction M using List.reverseRecOn with
  | nil => rfl
  | append_singleton M' t ih =>
    rw [List.pairwise_append] at hsorted
    obtain ⟨hM', _, hall⟩ := hsorted
    have hall' : ∀ a ∈ M', lexLt a t = true := fun a ha =>
      hall a ha t (List.mem_cons_self t [])
    rw [List.reverse_append]
    simp only [List.reverse_cons, List.reverse_nil, List.nil_append,
      List.cons_append, List.find?_cons]
    rcases hpt : p t with _ | _
    · simp only []
      rw [ih hM']
      unfold foldBest
      rw [List.foldl_append]
      simp [hpt]
    · simp only []
      unfold foldBest
      rw [List.foldl_append]
      simp only [List.foldl_cons, List.foldl_nil, hpt, if_true]
      exact (foldBest_grow p t M' r hall').symm

theorem foldl_strip (loose : List (List Nat)) (l : List TagT) :
    ∀ r0 : List Nat,
      l.foldl (fun res tg =>
        match stripTag tg.ref with
        | some t =>
          if ! loose.contains t then (if lexLt res t then t else res) else res
        | none => res) r0 =
      foldBest (fun t => ! loose.contains t) r0
        (l.filterMap (fun tg => stripTag tg.ref)) := by
  induction l with
  | nil => intro r0; rfl
  | cons tg rest ih =>
    intro r0
    rcases hstrip : stripTag tg.ref with _ | t
    · simp only [List.foldl_cons, List.filterMap_cons, hstrip]
      exact ih r0
    · simp only [List.foldl_cons, List.filterMap_cons, hstrip]
      rw [ih]
      unfold foldBest strMax
      rfl

theorem parse_filterMap (commit : OidT) (peeled : Bool) (refs : List TagT) :
    ((parsePackRefs commit peeled refs).1.filter
        (fun tg => tg.commit = commit)).filterMap (fun tg => stripTag tg.ref) =
      (parsePackRefs commit peeled refs).2.2 := by
  induction refs with
  | nil => rfl
  | cons r rest ih =>
    rcases hstrip : stripTag r.ref with _ | tag
    · simp only [parsePackRefs, hstrip]
      exact ih
    · cases peeled with
      | false =>
        simp only [parsePackRefs, hstrip, Bool.false_eq_true, if_false]
        exact ih
      | true =>
        simp only [parsePackRefs, hstrip, if_true]
        by_cases hc : r.commit = commit
        · have hd : (fun tg : TagT => decide (tg.commit = commit)) r = true := by
            simp [hc]
          simp only [if_pos hc, List.filter_cons, hd, if_true,
            List.filterMap_cons, hstrip]
          rw [ih]
        · have hd : (fun tg : TagT => decide (tg.commit = commit)) r = false := by
            simp [hc]
          simp only [if_neg hc, List.filter_cons, hd, Bool.false_eq_true, if_false]
          exact ih

/-- C6 (amended): calling `TagForCommit` twice on a fresh `TagDb` with an
unchanged filesystem never re-reads or re-parses `packed-refs` on the second
call — for every filesystem — and the two calls return the same string
provided the pack's matching tag names appear in ascending (git's) order. -/
theorem tagdb_second_call_cached (fs : TagFS) (oid : OidT) :
    (tagForCommit (tagForCommit tagDbInit fs oid).1 fs oid).2.2 = false ∧
    (List.Pairwise (fun a b => lexLt a b = true)
        (parsePackRefs oid fs.pack.fully_peeled fs.pack.refs).2.2 →
      (tagForCommit (tagForCommit tagDbInit fs oid).1 fs oid).2.1 =
        (tagForCommit tagDbInit fs oid).2.1) := by
  rcases hp : fs.pack.stat with _ | st
  · constructor
    · simp [tagForCommit, updatePack, hp]
    · intro _
      simp [tagForCommit, updatePack, hp]
  · by_cases he : StatEq tagDbInit.pack_stat st = true
    · constructor
      · simp [tagForCommit, updatePack, hp, he]
      · intro _
        simp [tagForCommit, updatePack, hp, he]
    · have he' : StatEq statZero st = false := by
        rcases hb : StatEq statZero st with _ | _
        · rfl
        · exact absurd hb he
      set P := parsePackRefs oid fs.pack.fully_peeled fs.pack.refs with hP
      set S1 : TagDbM := ⟨st, P.1, strSortCS P.2.1⟩ with hS1
      set loose := fs.loose.getD [] with hloose
      set res0 := loose.foldl
        (fun res t =>
          if fs.resolves t then (if lexLt res t then t else res) else res) [] with hres0
      have hu1 : updatePack tagDbInit fs oid = (S1, some P.2.2) := by
        simp only [updatePack, hp, tagDbInit, he', Bool.false_eq_true, if_false,
          parsePack, hS1, hP]
        simp
      have hu2 : updatePack S1 fs oid = (S1, none) := by
        simp only [updatePack, hp, hS1, statEq_refl, if_true]
      have hcall2 : tagForCommit S1 fs oid =
          (S1, (S1.peeled_tags.filter (fun tg => tg.commit = oid)).foldl
            (fun res tg =>
              match stripTag tg.ref with
              | some t =>
                if ! loose.contains t then (if lexLt res t then t else res) else res
              | none => res) res0, false) := by
        simp only [tagForCommit, hu2, ← hloose, ← hres0]
      have hfold : (S1.peeled_tags.filter (fun tg => tg.commit = oid)).foldl
            (fun res tg =>
              match stripTag tg.ref with
              | some t =>
                if ! loose.contains t then (if lexLt res t then t else res) else res
              | none => res) res0 =
          foldBest (fun t => ! loose.contains t) res0 P.2.2 := by
        have hpt : S1.peeled_tags = P.1 := rfl
        rw [hpt, foldl_strip, parse_filterMap]
      rcases hfind : P.2.2.reverse.find? (fun t => ! loose.contains t) with _ | t
      · have hcall1 : tagForCommit tagDbInit fs oid = (S1, res0, true) := by
          simp only [tagForCommit, hu1, ← hloose, ← hres0, hfind]
        rw [hcall1, hcall2]
        refine ⟨rfl, ?_⟩
        intro hsorted
        have hbest := findRev_eq_foldBest (fun t => ! loose.contains t) P.2.2 res0 hsorted
        rw [hfind] at hbest
        rw [hfold, ← hbest]
      · have hcall1 : tagForCommit tagDbInit fs oid =
            (S1, if lexLt res0 t then t else res0, true) := by
          simp only [tagForCommit, hu1, ← hloose, ← hres0, hfind]
        rw [hcall1, hcall2]
        refine ⟨rfl, ?_⟩
        intro hsorted
        have hbest := findRev_eq_foldBest (fun t => ! loose.contains t) P.2.2 res0 hsorted
        rw [hfind] at hbest
        rw [hfold, ← hbest]
        rfl

/-- Witness for `tagdb_second_call_cached` at concrete input: an ascending
fully-peeled pack `[a, z]`; the inner ascending-order hypothesis is
discharged at this input. -/
theorem tagdb_second_call_cached_witness :
    (tagForCommit (tagForCommit tagDbInit
        ⟨⟨some ⟨0, 0, 0, 0, 0, 1⟩, true,
          [⟨kTagPrefix ++ [97], ⟨[1]⟩⟩, ⟨kTagPrefix ++ [122], ⟨[1]⟩⟩]⟩,
          some [], fun _ => false⟩ ⟨[1]⟩).1
        ⟨⟨some ⟨0, 0, 0, 0, 0, 1⟩, true,
          [⟨kTagPrefix ++ [97], ⟨[1]⟩⟩, ⟨kTagPrefix ++ [122], ⟨[1]⟩⟩]⟩,
          some [], fun _ => false⟩ ⟨[1]⟩).2.2 = false ∧
    (tagForCommit (tagForCommit tagDbInit
        ⟨⟨some ⟨0, 0, 0, 0, 0, 1⟩, true,
          [⟨kTagPrefix ++ [97], ⟨[1]⟩⟩, ⟨kTagPrefix ++ [122], ⟨[1]⟩⟩]⟩,
          some [], fun _ => false⟩ ⟨[1]⟩).1
        ⟨⟨some ⟨0, 0, 0, 0, 0, 1⟩, true,
          [⟨kTagPrefix ++ [97], ⟨[1]⟩⟩, ⟨kTagPrefix ++ [122], ⟨[1]⟩⟩]⟩,
          some [], fun _ => false⟩ ⟨[1]⟩).2.1 =
      (tagForCommit tagDbInit
        ⟨⟨some ⟨0, 0, 0, 0, 0, 1⟩, true,
          [⟨kTagPrefix ++ [97], ⟨[1]⟩⟩, ⟨kTagPrefix ++ [122], ⟨[1]⟩⟩]⟩,
          some [], fun _ => false⟩ ⟨[1]⟩).2.1 :=
  ⟨(tagdb_second_call_cached
      ⟨⟨some ⟨0, 0, 0, 0, 0, 1⟩, true,
        [⟨kTagPrefix ++ [97], ⟨[1]⟩⟩, ⟨kTagPrefix ++ [122], ⟨[1]⟩⟩]⟩,
        some [], fun _ => false⟩ ⟨[1]⟩).1,
   (tagdb_second_call_cached
      ⟨⟨some ⟨0, 0, 0, 0, 0, 1⟩, true,
        [⟨kTagPrefix ++ [97], ⟨[1]⟩⟩, ⟨kTagPrefix ++ [122], ⟨[1]⟩⟩]⟩,
        some [], fun _ => false⟩ ⟨[1]⟩).2 (by decide)⟩

end Gitstatus
